import Mathlib

/-!
Verification of the timeline-reconciliation and frame-exact trimming core of
`multiviewedit` (files `src/multiviewedit/mve.py` and
`src/multiviewedit/trim.py`), as a shallow embedding in Lean.

The embedding keeps the source's names where possible: `reconcile` embeds the
window computation of `VideoProcessor._run_export`, `trim_video` and
`trim_to_sequence` embed the per-frame loops of `trim.py`, and
`get_video_info` embeds the media inspector.
-/

namespace Multiviewedit

/-- The tightening loop of `VideoProcessor._run_export` (mve.py 359-362):
for every non-master source with frame count `c` and offset `o`,
`start = max(start, -o)` and `end = min(end, c - 1 - o)`. -/
def reconcileLoop : List (Int × Int) → Int × Int → Int × Int
  | [], se => se
  | (c, o) :: rest, (s, e) => reconcileLoop rest (max s (-o), min e (c - 1 - o))

/-- The window computation of `VideoProcessor._run_export` (mve.py 355-366):
start from the master source's own extent `[0, counts[0] - 1]`, tighten by
every other source, then clamp by the user trim range. -/
def reconcile (counts offsets : List Int) (trimStart trimEnd : Int) : Int × Int :=
  let se := reconcileLoop ((counts.drop 1).zip (offsets.drop 1)) (0, counts.headD 0 - 1)
  (max se.1 trimStart, min se.2 trimEnd)

/-- mve.py 368: the export is rejected ("No overlapping frames to export")
exactly when `start_timeline_frame >= end_timeline_frame`. -/
def emptyOverlap (counts offsets : List Int) (trimStart trimEnd : Int) : Prop :=
  (reconcile counts offsets trimStart trimEnd).2 ≤ (reconcile counts offsets trimStart trimEnd).1

instance (counts offsets : List Int) (trimStart trimEnd : Int) :
    Decidable (emptyOverlap counts offsets trimStart trimEnd) := by
  unfold emptyOverlap
  infer_instance

/-- mve.py 374-375: the per-source trim range is
`[start + offset[i], end + offset[i]]` for every source, the master included. -/
def trimPlan (se : Int × Int) (o : Int) : Int × Int := (se.1 + o, se.2 + o)

/-! Fold identities used to put `reconcileLoop` into the closed form of the
specification. -/

lemma foldr_max_absorb (l : List (Int × Int)) (b t : Int) :
    l.foldr (fun co a => max (-co.2) a) (max b t)
      = max (l.foldr (fun co a => max (-co.2) a) b) t := by
  induction l with
  | nil => rfl
  | cons x xs ih => simp only [List.foldr_cons, ih, max_assoc]

lemma foldr_min_absorb (l : List (Int × Int)) (b t : Int) :
    l.foldr (fun co a => min (co.1 - 1 - co.2) a) (min b t)
      = min (l.foldr (fun co a => min (co.1 - 1 - co.2) a) b) t := by
  induction l with
  | nil => rfl
  | cons x xs ih => simp only [List.foldr_cons, ih, min_assoc]

lemma reconcileLoop_eq_foldr (l : List (Int × Int)) (s e : Int) :
    reconcileLoop l (s, e)
      = (l.foldr (fun co a => max (-co.2) a) s,
         l.foldr (fun co a => min (co.1 - 1 - co.2) a) e) := by
  induction l generalizing s e with
  | nil => rfl
  | cons x xs ih =>
    obtain ⟨c, o⟩ := x
    simp only [reconcileLoop, ih, List.foldr_cons]
    rw [foldr_max_absorb, foldr_min_absorb]
    simp only [Prod.mk.injEq]
    exact ⟨max_comm _ _, min_comm _ _⟩

lemma zip_foldr_max_snd (cs os : List Int) (b : Int) (h : cs.length = os.length) :
    (cs.zip os).foldr (fun co a => max (-co.2) a) b
      = os.foldr (fun o a => max (-o) a) b := by
  induction cs generalizing os with
  | nil =>
    cases os with
    | nil => rfl
    | cons o os' => simp at h
  | cons c cs' ih =>
    cases os with
    | nil => simp at h
    | cons o os' =>
      have h' : cs'.length = os'.length := by
        simp only [List.length_cons] at h
        omega
      simp only [List.zip_cons_cons, List.foldr_cons, ih os' h']

lemma le_foldr_max (l : List Int) (b : Int) :
    b ≤ l.foldr (fun o a => max (-o) a) b := by
  induction l with
  | nil => exact le_refl b
  | cons x xs ih => exact le_trans ih (le_max_right _ _)

lemma foldr_min_le (l : List (Int × Int)) (b : Int) :
    l.foldr (fun co a => min (co.1 - 1 - co.2) a) b ≤ b := by
  induction l with
  | nil => exact le_refl b
  | cons x xs ih => exact le_trans (min_le_right _ _) ih

lemma reconcile_eq (counts offsets : List Int) (ts te : Int)
    (h : counts.length = offsets.length) :
    reconcile counts offsets ts te
      = (max ((offsets.drop 1).foldr (fun o a => max (-o) a) 0) ts,
         min (((counts.drop 1).zip (offsets.drop 1)).foldr
              (fun co a => min (co.1 - 1 - co.2) a) (counts.headD 0 - 1)) te) := by
  unfold reconcile
  rw [reconcileLoop_eq_foldr,
    zip_foldr_max_snd _ _ _ (by simp [List.length_drop, h])]

/-- C1: for frame counts `c_0..c_{n-1}` (all positive), offsets
`o_0..o_{n-1}` and user trim bounds, the reconciled window is
`start = max(0, max over non-master i of -o_i, userTrimStart)` and
`end = min(c_0 - 1, min over non-master i of c_i - 1 - o_i, userTrimEnd)`;
and a user trim `[10, 30]` inside a natural overlap `[0, 99]` gives
exactly the window `[10, 30]`. -/
theorem reconcile_window_closed_form :
    (∀ (counts offsets : List Int) (ts te : Int),
      counts ≠ [] → counts.length = offsets.length → (∀ c ∈ counts, 0 < c) →
      reconcile counts offsets ts te
        = (max (max 0 ((offsets.drop 1).foldr (fun o a => max (-o) a) 0)) ts,
           min (min (counts.headD 0 - 1)
                (((counts.drop 1).zip (offsets.drop 1)).foldr
                  (fun co a => min (co.1 - 1 - co.2) a) (counts.headD 0 - 1))) te))
    ∧ reconcile [100, 100] [0, 0] 10 30 = (10, 30) := by
  constructor
  · intro counts offsets ts te _ hlen _
    rw [reconcile_eq counts offsets ts te hlen]
    rw [max_eq_right (le_foldr_max _ 0), min_eq_right (foldr_min_le _ _)]
  · decide

/-- Witness for C1 at a concrete input: two 100-frame sources, offsets 0,
user trim `[10, 30]`. -/
theorem reconcile_window_closed_form_witness :
    reconcile [100, 100] [0, 0] 10 30
      = (max (max 0 (([0, 0] : List Int).drop 1 |>.foldr (fun o a => max (-o) a) 0)) 10,
         min (min (([100, 100] : List Int).headD 0 - 1)
              ((([100, 100] : List Int).drop 1 |>.zip (([0, 0] : List Int).drop 1)).foldr
                (fun co a => min (co.1 - 1 - co.2) a) (([100, 100] : List Int).headD 0 - 1))) 30) :=
  reconcile_window_closed_form.1 [100, 100] [0, 0] 10 30 (by decide) (by decide)
    (by decide)

/-- A master-frame index `m` is valid for every source: for each source,
the local frame `m + offset` lies within `[0, count - 1]`. -/
def validFrame (counts offsets : List Int) (m : Int) : Prop :=
  ∀ co ∈ counts.zip offsets, 0 ≤ m + co.2 ∧ m + co.2 < co.1

instance (counts offsets : List Int) (m : Int) : Decidable (validFrame counts offsets m) := by
  unfold validFrame
  infer_instance

lemma zip_foldr_max_le_iff (l : List (Int × Int)) (b m : Int) :
    l.foldr (fun co a => max (-co.2) a) b ≤ m ↔ b ≤ m ∧ ∀ co ∈ l, -co.2 ≤ m := by
  induction l with
  | nil => simp
  | cons x xs ih =>
    simp only [List.foldr_cons, max_le_iff, ih, List.forall_mem_cons]
    tauto

lemma le_foldr_min_iff (l : List (Int × Int)) (b m : Int) :
    m ≤ l.foldr (fun co a => min (co.1 - 1 - co.2) a) b
      ↔ m ≤ b ∧ ∀ co ∈ l, m ≤ co.1 - 1 - co.2 := by
  induction l with
  | nil => simp
  | cons x xs ih =>
    simp only [List.foldr_cons, le_min_iff, ih, List.forall_mem_cons]
    tauto

/-- A master-frame index is valid for every source exactly when it lies in
the window that `reconcile` computes with a non-narrowing user trim
`[0, counts[0] - 1]` and a master offset of `0`. -/
lemma validFrame_iff_window (c0 : Int) (cs os : List Int) (m : Int) :
    validFrame (c0 :: cs) (0 :: os) m
      ↔ (reconcile (c0 :: cs) (0 :: os) 0 (c0 - 1)).1 ≤ m
        ∧ m ≤ (reconcile (c0 :: cs) (0 :: os) 0 (c0 - 1)).2 := by
  unfold reconcile validFrame
  rw [reconcileLoop_eq_foldr]
  simp only [List.drop_succ_cons, List.drop_zero, List.headD_cons, List.zip_cons_cons,
    List.forall_mem_cons, max_le_iff, le_min_iff, zip_foldr_max_le_iff, le_foldr_min_iff]
  have h1 : (∀ co ∈ cs.zip os, 0 ≤ m + co.2 ∧ m + co.2 < co.1)
      ↔ ((∀ co ∈ cs.zip os, -co.2 ≤ m) ∧ (∀ co ∈ cs.zip os, m ≤ co.1 - 1 - co.2)) := by
    constructor
    · intro h
      exact ⟨fun co hco => by have := h co hco; omega,
             fun co hco => by have := h co hco; omega⟩
    · intro h co hco
      have := h.1 co hco
      have := h.2 co hco
      omega
  have h2 : (0 ≤ m + 0 ∧ m + 0 < c0) ↔ (0 ≤ m ∧ m ≤ c0 - 1) := by omega
  rw [h2, h1]
  tauto

/-- C3 counterexample: with frame counts `[1, 1]` and offsets `[0, 0]`
(no user trim: trim range `[0, counts[0] - 1] = [0, 0]`), the master-frame
index `0` is valid for every source, yet the code signals "no overlapping
frames" because it rejects whenever `start >= end`. -/
theorem reconcile_single_frame_overlap_rejected :
    validFrame [1, 1] [0, 0] 0 ∧ emptyOverlap [1, 1] [0, 0] 0 0 := by
  decide

/-- C3 amended: with positive counts, `offset[0] = 0` and no narrowing user
trim, the export succeeds (no `EmptyOverlapError`) iff at least two
consecutive master-frame indices are valid for every source; the computed
bounds satisfy `start <= end` iff at least one valid index exists. -/
theorem reconcile_succeeds_iff_two_common_frames :
    ∀ (c0 : Int) (cs os : List Int), cs.length = os.length → 0 < c0 →
    (∀ c ∈ cs, 0 < c) →
    ((¬ emptyOverlap (c0 :: cs) (0 :: os) 0 (c0 - 1))
        ↔ ∃ m, validFrame (c0 :: cs) (0 :: os) m ∧ validFrame (c0 :: cs) (0 :: os) (m + 1))
    ∧ (((reconcile (c0 :: cs) (0 :: os) 0 (c0 - 1)).1
          ≤ (reconcile (c0 :: cs) (0 :: os) 0 (c0 - 1)).2)
        ↔ ∃ m, validFrame (c0 :: cs) (0 :: os) m) := by
  intro c0 cs os _ _ _
  unfold emptyOverlap
  constructor
  · constructor
    · intro h
      refine ⟨(reconcile (c0 :: cs) (0 :: os) 0 (c0 - 1)).1, ?_, ?_⟩
      · rw [validFrame_iff_window]
        omega
      · rw [validFrame_iff_window]
        omega
    · intro ⟨m, hm, hm1⟩
      rw [validFrame_iff_window] at hm hm1
      omega
  · constructor
    · intro h
      refine ⟨(reconcile (c0 :: cs) (0 :: os) 0 (c0 - 1)).1, ?_⟩
      rw [validFrame_iff_window]
      omega
    · intro ⟨m, hm⟩
      rw [validFrame_iff_window] at hm
      omega

/-- Witness for C3's amended theorem at counts `[2]`, offsets `[0]`. -/
theorem reconcile_succeeds_iff_two_common_frames_witness :
    ((¬ emptyOverlap [2] [0] 0 (2 - 1))
        ↔ ∃ m, validFrame [2] [0] m ∧ validFrame [2] [0] (m + 1))
    ∧ (((reconcile [2] [0] 0 (2 - 1)).1 ≤ (reconcile [2] [0] 0 (2 - 1)).2)
        ↔ ∃ m, validFrame [2] [0] m) :=
  reconcile_succeeds_iff_two_common_frames 2 [] [] rfl (by decide) (by decide)

/-- C6 counterexample: with frame counts `[100, 90, 120]`, offsets
`[0, -5, 10]` and a non-narrowing user trim, the code computes the window
`(5, 94)` — not `(5, 99)` as the claim states, because source 1 (90 frames
at offset -5) already caps the end at `90 - 1 - (-5) = 94`. -/
theorem reconcile_example_not_ninetynine :
    reconcile [100, 90, 120] [0, -5, 10] 0 1000000 = (5, 94)
    ∧ reconcile [100, 90, 120] [0, -5, 10] 0 1000000 ≠ (5, 99) := by
  decide

/-- C6 amended: with frame counts `[100, 90, 120]`, offsets `[0, -5, 10]`
and a non-narrowing user trim, reconciliation produces `start = 5`,
`end = 94`, a window of 90 frames, and every source's trim range spans
exactly 90 frames. -/
theorem reconcile_example_window :
    reconcile [100, 90, 120] [0, -5, 10] 0 1000000 = (5, 94)
    ∧ ∀ o ∈ ([0, -5, 10] : List Int),
        (trimPlan (reconcile [100, 90, 120] [0, -5, 10] 0 1000000) o).2
          - (trimPlan (reconcile [100, 90, 120] [0, -5, 10] 0 1000000) o).1 + 1 = 90 := by
  decide

/-- C10: the reconciliation loop never reads the master source's own offset
(the window is unchanged under any replacement of `offsets[0]`), while every
source's trim range — the master's included — is `[start + offset[i],
end + offset[i]]` (`trimPlan`); hence with counts `[100, 100]` and offsets
`[50, 0]` reconciliation succeeds with window `(0, 99)` but source 0's trim
range `(50, 149)` exceeds its valid frame range `[0, 99]`. -/
theorem reconcile_ignores_master_offset :
    (∀ (counts offsets : List Int) (o₀ o₀' ts te : Int),
      reconcile counts (o₀ :: offsets) ts te = reconcile counts (o₀' :: offsets) ts te)
    ∧ reconcile [100, 100] [50, 0] 0 1000 = (0, 99)
    ∧ (reconcile [100, 100] [50, 0] 0 1000).1 < (reconcile [100, 100] [50, 0] 0 1000).2
    ∧ trimPlan (reconcile [100, 100] [50, 0] 0 1000) 50 = (50, 149)
    ∧ ¬((trimPlan (reconcile [100, 100] [50, 0] 0 1000) 50).2 ≤ 100 - 1) :=
  ⟨fun _ _ _ _ _ _ => rfl, by decide, by decide, by decide, by decide⟩

/-- Outcome of `VideoProcessor._run_export` (mve.py 342-398): rejection for
lack of overlap, failure after a trim raised (carrying the sources trimmed
successfully before it and the failing source), or completion. -/
inductive ExportOutcome where
  | noOverlap : ExportOutcome
  | failed : List Nat → Nat → ExportOutcome
  | complete : List Nat → ExportOutcome
deriving DecidableEq

/-- The sources for which a trim was attempted (successfully or not). -/
def ExportOutcome.attempted : ExportOutcome → List Nat
  | .noOverlap => []
  | .failed ws i => ws ++ [i]
  | .complete ws => ws

/-- The per-source loop of `_run_export` (mve.py 373-390), abstracting each
trim call to a success flag `trimOk i`: the body is inside the function's
single `try`, so the first raising trim transfers control to the `except`
handler and no further source is processed. -/
def exportLoop (trimOk : Nat → Bool) : List Nat → List Nat × Option Nat
  | [] => ([], none)
  | i :: rest =>
    if trimOk i then
      let r := exportLoop trimOk rest
      (i :: r.1, r.2)
    else ([], some i)

/-- `_run_export` after inspection: reconcile, reject when
`start >= end` (mve.py 368-370), otherwise trim each source in order. -/
def runExport (counts offsets : List Int) (trimStart trimEnd : Int)
    (trimOk : Nat → Bool) : ExportOutcome :=
  let se := reconcile counts offsets trimStart trimEnd
  if se.2 ≤ se.1 then .noOverlap
  else
    match exportLoop trimOk (List.range counts.length) with
    | (ws, none) => .complete ws
    | (ws, some i) => .failed ws i

/-- C4: whenever the tightened, user-clamped window has `start >= end`, the
export stops with the no-overlap outcome and no per-source trim is
attempted; in particular counts `[41, 100]` with offsets `[0, -50]` yield
the window `(50, 40)` and the no-overlap outcome. -/
theorem runExport_no_overlap :
    (∀ (counts offsets : List Int) (ts te : Int) (trimOk : Nat → Bool),
      (reconcile counts offsets ts te).2 ≤ (reconcile counts offsets ts te).1 →
      runExport counts offsets ts te trimOk = .noOverlap
        ∧ (runExport counts offsets ts te trimOk).attempted = [])
    ∧ reconcile [41, 100] [0, -50] 0 1000 = (50, 40)
    ∧ runExport [41, 100] [0, -50] 0 1000 (fun _ => true) = .noOverlap := by
  refine ⟨?_, by decide, by decide⟩
  intro counts offsets ts te trimOk h
  unfold runExport
  simp only [if_pos h]
  exact ⟨trivial, rfl⟩

/-- Witness for C4 at counts `[41, 100]`, offsets `[0, -50]`. -/
theorem runExport_no_overlap_witness :
    runExport [41, 100] [0, -50] 0 1000 (fun _ => true) = .noOverlap
      ∧ (runExport [41, 100] [0, -50] 0 1000 (fun _ => true)).attempted = [] :=
  runExport_no_overlap.1 [41, 100] [0, -50] 0 1000 (fun _ => true) (by decide)

/-- C5 counterexample: two sources with a valid overlap, where source 0's
trim raises: the export ends in the failed outcome having attempted only
source 0 — source 1 is never attempted, contrary to the claim that the
orchestrator keeps trimming the remaining sources. -/
theorem export_abort_counterexample :
    runExport [100, 100] [0, 0] 0 99 (fun i => decide (0 < i)) = .failed [] 0
      ∧ 1 ∉ (runExport [100, 100] [0, 0] 0 99 (fun i => decide (0 < i))).attempted := by
  decide

lemma exportLoop_range' (trimOk : Nat → Bool) (i : Nat) (hfail : trimOk i = false) :
    ∀ (n s : Nat), (∀ j, s ≤ j → j < i → trimOk j = true) → s ≤ i → i < s + n →
    exportLoop trimOk (List.range' s n) = (List.range' s (i - s), some i) := by
  intro n
  induction n with
  | zero =>
    intro s _ _ h
    omega
  | succ n ih =>
    intro s hok hsi hin
    rw [List.range'_succ]
    rcases Nat.lt_or_ge s i with hlt | hge
    · have hs : trimOk s = true := hok s le_rfl hlt
      rw [exportLoop, if_pos hs, ih (s + 1) (fun j h1 h2 => hok j (by omega) h2) (by omega)
        (by omega)]
      have : i - s = (i - (s + 1)) + 1 := by omega
      rw [this, List.range'_succ]
    · have hs : s = i := by omega
      simp [exportLoop, hs, hfail]

/-- C5 amended: the orchestrator does NOT continue past a failing source:
if every source before `i` trims successfully and source `i`'s trim fails,
the export attempts exactly sources `0..i` (in order), aborts there, and is
reported as failed. -/
theorem export_aborts_on_first_trim_failure :
    ∀ (counts offsets : List Int) (ts te : Int) (trimOk : Nat → Bool) (i : Nat),
    (reconcile counts offsets ts te).1 < (reconcile counts offsets ts te).2 →
    i < counts.length →
    (∀ j, j < i → trimOk j = true) →
    trimOk i = false →
    runExport counts offsets ts te trimOk = .failed (List.range i) i
      ∧ (runExport counts offsets ts te trimOk).attempted = List.range (i + 1) := by
  intro counts offsets ts te trimOk i hwin hi hok hfail
  have hloop : exportLoop trimOk (List.range counts.length)
      = (List.range' 0 i, some i) := by
    rw [List.range_eq_range']
    exact exportLoop_range' trimOk i hfail counts.length 0
      (fun j _ h2 => hok j h2) (Nat.zero_le i) (by omega)
  unfold runExport
  rw [if_neg (by omega), hloop]
  constructor
  · rw [List.range_eq_range']
  · show List.range' 0 i ++ [i] = List.range (i + 1)
    rw [List.range_succ, List.range_eq_range']

/-- Witness for C5's amended theorem: two equal sources, source 0 fails. -/
theorem export_aborts_on_first_trim_failure_witness :
    runExport [100, 100] [0, 0] 0 99 (fun j => decide (0 < j)) = .failed (List.range 0) 0
      ∧ (runExport [100, 100] [0, 0] 0 99 (fun j => decide (0 < j))).attempted
          = List.range (0 + 1) :=
  export_aborts_on_first_trim_failure [100, 100] [0, 0] 0 99 (fun j => decide (0 < j)) 0
    (by decide) (by decide) (fun j h => absurd h (by omega)) (by decide)

/-- The video-frame loop of `trim_video` (trim.py 67-101), at the level of
decoded frames (one `pts` per decoded video frame, in decode order):
the counter starts at -1 and is incremented per frame; frames before
`frame_start` are skipped; a frame past `frame_end` stops the loop; the
first in-range frame's pts becomes the subtraction origin (`start_pts`),
and every encoded frame carries `pts - origin`. -/
def trimVideoLoop (fs fe : Int) : List Int → Int → Option Int → List Int
  | [], _, _ => []
  | pts :: rest, frameNum, origin =>
    if frameNum + 1 < fs then trimVideoLoop fs fe rest (frameNum + 1) origin
    else if fe < frameNum + 1 then []
    else
      (pts - origin.getD pts) :: trimVideoLoop fs fe rest (frameNum + 1) (some (origin.getD pts))

/-- `trim_video` (trim.py 42-119): the sequence of video pts values fed to
the encoder, for an input whose decoded video frames carry `frames`. -/
def trim_video (frames : List Int) (fs fe : Int) : List Int :=
  trimVideoLoop fs fe frames (-1) none

lemma trimVideoLoop_emit (fs fe og : Int) :
    ∀ (frames : List Int) (n : Int), fs ≤ n + 1 →
    trimVideoLoop fs fe frames n (some og)
      = (frames.take (fe - n).toNat).map (fun p => p - og) := by
  intro frames
  induction frames with
  | nil =>
    intro n _
    simp [trimVideoLoop]
  | cons pts rest ih =>
    intro n h
    rw [trimVideoLoop, if_neg (by omega)]
    by_cases hfe : fe < n + 1
    · rw [if_pos hfe]
      have h0 : (fe - n).toNat = 0 := by omega
      simp [h0]
    · rw [if_neg hfe]
      have h1 : (fe - n).toNat = (fe - (n + 1)).toNat + 1 := by omega
      rw [h1, List.take_succ_cons, List.map_cons]
      simp only [Option.getD_some]
      rw [ih (n + 1) (by omega)]

lemma trimVideoLoop_skip (fs fe : Int) :
    ∀ (frames : List Int) (n : Int), n + 1 ≤ fs →
    trimVideoLoop fs fe frames n none
      = (match frames.drop (fs - (n + 1)).toNat with
         | [] => []
         | p :: rest =>
           if fe < fs then [] else 0 :: (rest.take (fe - fs).toNat).map (fun q => q - p)) := by
  intro frames
  induction frames with
  | nil =>
    intro n _
    simp [trimVideoLoop]
  | cons pts rest ih =>
    intro n h
    by_cases hlt : n + 1 < fs
    · rw [trimVideoLoop, if_pos hlt, ih (n + 1) (by omega)]
      have h1 : (fs - (n + 1)).toNat = (fs - (n + 1 + 1)).toNat + 1 := by omega
      rw [h1, List.drop_succ_cons]
    · have heq : n + 1 = fs := by omega
      have hd : (fs - (n + 1)).toNat = 0 := by omega
      rw [trimVideoLoop, if_neg hlt]
      simp only [hd, List.drop_zero]
      by_cases hfe : fe < n + 1
      · rw [if_pos hfe, if_pos (by omega)]
      · rw [if_neg hfe, if_neg (by omega)]
        simp only [Option.getD_none, sub_self, List.cons.injEq, true_and]
        rw [trimVideoLoop_emit fs fe pts rest (n + 1) (by omega)]
        have h2 : fe - (n + 1) = fe - fs := by omega
        rw [h2]

/-- C2: for a video-kind trim with `0 <= localStart <= localEnd` and an
input with more than `localEnd` decoded video frames, the first encoded
frame's pts is exactly 0, the number of encoded video frames is
`localEnd - localStart + 1`, and every encoded pts is the original pts
minus the pts of the first in-range frame. -/
theorem trim_video_spec :
    ∀ (frames : List Int) (fs fe : Int),
    0 ≤ fs → fs ≤ fe → fe < (frames.length : Int) →
    (trim_video frames fs fe).head? = some 0
    ∧ ((trim_video frames fs fe).length : Int) = fe - fs + 1
    ∧ trim_video frames fs fe
        = ((frames.drop fs.toNat).take (fe - fs + 1).toNat).map
            (fun p => p - (frames.drop fs.toNat).headD 0) := by
  intro frames fs fe h0 hse hlen
  unfold trim_video
  rw [trimVideoLoop_skip fs fe frames (-1) (by omega)]
  have hstep : fs - (-1 + 1) = fs := by ring
  rw [hstep]
  have hne : frames.drop fs.toNat ≠ [] := by
    have : (frames.drop fs.toNat).length = frames.length - fs.toNat := List.length_drop _ _
    intro hnil
    rw [hnil] at this
    simp only [List.length_nil] at this
    omega
  obtain ⟨p, rest, hpr⟩ := List.exists_cons_of_ne_nil hne
  have hrest : (rest.length : Int) = (frames.length : Int) - fs.toNat - 1 := by
    have h1 : (frames.drop fs.toNat).length = frames.length - fs.toNat := List.length_drop _ _
    rw [hpr] at h1
    simp only [List.length_cons] at h1
    omega
  rw [hpr]
  simp only [if_neg (by omega : ¬ fe < fs)]
  refine ⟨rfl, ?_, ?_⟩
  · simp only [List.length_cons, List.length_map, List.length_take]
    have : (fe - fs).toNat ≤ rest.length := by omega
    omega
  · have h3 : (fe - fs + 1).toNat = (fe - fs).toNat + 1 := by omega
    rw [h3, List.take_succ_cons, List.map_cons, List.headD_cons, sub_self]

/-- Witness for C2: frames with pts `[7, 9, 11, 13]`, trim range `[1, 2]`. -/
theorem trim_video_spec_witness :
    (trim_video [7, 9, 11, 13] 1 2).head? = some 0
    ∧ ((trim_video [7, 9, 11, 13] 1 2).length : Int) = 2 - 1 + 1
    ∧ trim_video [7, 9, 11, 13] 1 2
        = ((([7, 9, 11, 13] : List Int).drop (1 : Int).toNat).take ((2 : Int) - 1 + 1).toNat).map
            (fun p => p - (([7, 9, 11, 13] : List Int).drop (1 : Int).toNat).headD 0) :=
  trim_video_spec [7, 9, 11, 13] 1 2 (by decide) (by decide) (by decide)

/-- The decode loop of `trim_to_sequence` (trim.py 122-153): the frame
counter starts at -1; frames before `frame_start` are skipped; a frame past
`frame_end` stops the loop; each in-range frame is written under the
current output index (which starts at `timeline_start_frame`) and the
output index is incremented by one. The result is the list of numeric
filename indices written, in order. -/
def trimSequenceLoop (fs fe : Int) : List Int → Int → Int → List Int
  | [], _, _ => []
  | _ :: rest, frameCount, outIdx =>
    if frameCount + 1 < fs then trimSequenceLoop fs fe rest (frameCount + 1) outIdx
    else if fe < frameCount + 1 then []
    else outIdx :: trimSequenceLoop fs fe rest (frameCount + 1) (outIdx + 1)

/-- `trim_to_sequence` (trim.py 122-153): numeric filename indices written
for an input with `frames` decoded video frames. -/
def trim_to_sequence (frames : List Int) (fs fe timelineStartFrame : Int) : List Int :=
  trimSequenceLoop fs fe frames (-1) timelineStartFrame

/-- Python's `f"{n:06d}"`: the decimal digits of `n`, sign first, padded
with leading zeros to a total width of six. -/
def pyPad6 (n : Int) : String :=
  let sign := if n < 0 then "-" else ""
  let digits := toString n.natAbs
  sign ++ String.mk (List.replicate (6 - (sign.length + digits.length)) '0') ++ digits

/-- trim.py 150: `f"{output_frame_num:06d}.jpg"`. -/
def seqFileName (n : Int) : String := pyPad6 n ++ ".jpg"

/-- The `pathlib.Path` fields `_run_export` uses: `parent`, `stem` (base
filename without extension) and the suffix; `name = stem ++ suffix`. -/
structure PyPath where
  parent : String
  stem : String
  suffix : String

/-- `Path.name`: base filename with its extension. -/
def PyPath.fullName (p : PyPath) : String := p.stem ++ p.suffix

/-- Output location per export kind (mve.py 378-389): a `synced` sibling
directory for video exports, a directory named after the source's base
filename (`p.stem`) for sequence exports; any other kind writes nothing. -/
def outputLocation (exportType : String) (p : PyPath) : Option String :=
  if exportType = "video" then some (p.parent ++ "/synced/" ++ p.fullName)
  else if exportType = "sequence" then some (p.parent ++ "/" ++ p.stem)
  else none

lemma trimSequenceLoop_emit (fs fe : Int) :
    ∀ (frames : List Int) (n t : Int), fs ≤ n + 1 →
    trimSequenceLoop fs fe frames n t
      = (List.range (min frames.length (fe - n).toNat)).map (fun k : Nat => t + (k : Int)) := by
  intro frames
  induction frames with
  | nil =>
    intro n t _
    simp [trimSequenceLoop]
  | cons pts rest ih =>
    intro n t h
    rw [trimSequenceLoop, if_neg (by omega)]
    by_cases hfe : fe < n + 1
    · rw [if_pos hfe]
      have h0 : (fe - n).toNat = 0 := by omega
      simp [h0]
    · rw [if_neg hfe, ih (n + 1) (t + 1) (by omega)]
      have h1 : (fe - n).toNat = (fe - (n + 1)).toNat + 1 := by omega
      rw [h1, List.length_cons, Nat.succ_min_succ, List.range_succ_eq_map, List.map_cons,
        List.map_map]
      have h2 : t + ((0 : Nat) : Int) = t := by simp
      rw [h2]
      refine congrArg (t :: ·) (List.map_congr_left ?_)
      intro k _
      simp only [Function.comp_apply]
      push_cast
      ring

lemma trimSequenceLoop_skip (fs fe : Int) :
    ∀ (frames : List Int) (n t : Int), n + 1 ≤ fs →
    trimSequenceLoop fs fe frames n t
      = (List.range (min (frames.length - (fs - (n + 1)).toNat) (fe - fs + 1).toNat)).map
          (fun k : Nat => t + (k : Int)) := by
  intro frames
  induction frames with
  | nil =>
    intro n t _
    simp [trimSequenceLoop]
  | cons pts rest ih =>
    intro n t h
    by_cases hlt : n + 1 < fs
    · rw [trimSequenceLoop, if_pos hlt, ih (n + 1) t (by omega)]
      have h1 : rest.length - (fs - (n + 1 + 1)).toNat
          = (pts :: rest).length - (fs - (n + 1)).toNat := by
        simp only [List.length_cons]
        omega
      rw [h1]
    · have heq : n + 1 = fs := by omega
      rw [trimSequenceLoop_emit fs fe (pts :: rest) n t (by omega)]
      have h1 : (fs - (n + 1)).toNat = 0 := by omega
      have h2 : (fe - n).toNat = (fe - fs + 1).toNat := by omega
      rw [h1, h2, Nat.sub_zero]

/-- C7: for a sequence-kind trim with `0 <= localStart <= localEnd` and
enough input frames, the written filename indices are exactly
`timelineStartOffset, timelineStartOffset + 1, ...` (first filename index
equals `timelineStartOffset`, successive indices increase by exactly 1 with
no gaps); filenames are six-digit zero-padded (`seqFileName 123 =
"000123.jpg"`), and the sequence-kind output directory is named after the
source's base filename (`parent/stem`). -/
theorem trim_to_sequence_spec :
    (∀ (frames : List Int) (fs fe t : Int),
      0 ≤ fs → fs ≤ fe → fe < (frames.length : Int) →
      trim_to_sequence frames fs fe t
          = (List.range (fe - fs + 1).toNat).map (fun k : Nat => t + (k : Int))
      ∧ ((trim_to_sequence frames fs fe t).map seqFileName).head? = some (seqFileName t)
      ∧ ((trim_to_sequence frames fs fe t).length : Int) = fe - fs + 1
      ∧ ∀ j : Nat, j + 1 < (trim_to_sequence frames fs fe t).length →
          (trim_to_sequence frames fs fe t).getD (j + 1) 0
            = (trim_to_sequence frames fs fe t).getD j 0 + 1)
    ∧ seqFileName 123 = "000123.jpg"
    ∧ (∀ p : PyPath, outputLocation "sequence" p = some (p.parent ++ "/" ++ p.stem)) := by
  refine ⟨?_, by decide, fun p => by simp [outputLocation]⟩
  intro frames fs fe t h0 hse hlen
  have hchar : trim_to_sequence frames fs fe t
      = (List.range (fe - fs + 1).toNat).map (fun k : Nat => t + (k : Int)) := by
    unfold trim_to_sequence
    rw [trimSequenceLoop_skip fs fe frames (-1) t (by omega)]
    have h1 : (fs - (-1 + 1)).toNat = fs.toNat := by omega
    rw [h1]
    have h2 : min (frames.length - fs.toNat) (fe - fs + 1).toNat = (fe - fs + 1).toNat := by
      omega
    rw [h2]
  refine ⟨hchar, ?_, ?_, ?_⟩
  · rw [hchar]
    have hm : (fe - fs + 1).toNat = (fe - fs).toNat + 1 := by omega
    rw [hm, List.range_succ_eq_map, List.map_cons, List.map_cons, List.head?_cons]
    simp
  · rw [hchar]
    simp only [List.length_map, List.length_range]
    omega
  · intro j hj
    rw [hchar] at hj ⊢
    simp only [List.length_map, List.length_range] at hj
    rw [List.getD_eq_getElem?_getD, List.getD_eq_getElem?_getD, List.getElem?_map,
      List.getElem?_map, List.getElem?_range (by omega : j + 1 < (fe - fs + 1).toNat),
      List.getElem?_range (by omega : j < (fe - fs + 1).toNat)]
    simp only [Option.map_some', Option.getD_some]
    push_cast
    ring

/-- Witness for C7: three frames, trim range `[1, 2]`, timeline start 10. -/
theorem trim_to_sequence_spec_witness :
    trim_to_sequence [5, 6, 7] 1 2 10
        = (List.range ((2 : Int) - 1 + 1).toNat).map (fun k : Nat => 10 + (k : Int))
    ∧ ((trim_to_sequence [5, 6, 7] 1 2 10).map seqFileName).head? = some (seqFileName 10)
    ∧ ((trim_to_sequence [5, 6, 7] 1 2 10).length : Int) = 2 - 1 + 1
    ∧ ∀ j : Nat, j + 1 < (trim_to_sequence [5, 6, 7] 1 2 10).length →
        (trim_to_sequence [5, 6, 7] 1 2 10).getD (j + 1) 0
          = (trim_to_sequence [5, 6, 7] 1 2 10).getD j 0 + 1 :=
  trim_to_sequence_spec.1 [5, 6, 7] 1 2 10 (by decide) (by decide) (by decide)

/-- Python's `int(x)` on a rational value: truncation toward zero. -/
def pyInt (q : ℚ) : Int := if 0 ≤ q then ⌊q⌋ else -⌊-q⌋

/-- The container metadata `get_video_info` (trim.py 8-40) reads through
PyAV: presence of a video stream, the video stream's `average_rate`
(absent or a rational), its container-reported `frames`, its `duration`
and `time_base` (either may be absent), the number of frames a full
sequential decode would yield, and audio presence. -/
structure Container where
  hasVideo : Bool
  averageRate : Option ℚ
  frames : Nat
  duration : Option Int
  timeBase : Option ℚ
  decodedFrames : Nat
  hasAudio : Bool

/-- The dictionary `get_video_info` returns. -/
structure VideoInfo where
  frame_rate : ℚ
  nb_frames : Int
  has_audio : Bool
deriving DecidableEq

/-- trim.py 20-27: the `nb_frames` fallback cascade. The container-reported
count is kept when nonzero; else, when both `duration` and `time_base` are
truthy (present and nonzero), `int(duration * time_base * frame_rate)`;
else the count of a full sequential decode. -/
def frameCountOf (c : Container) (r : ℚ) : Int :=
  if c.frames = 0 then
    match c.duration, c.timeBase with
    | some d, some tb =>
      if d ≠ 0 ∧ tb ≠ 0 then pyInt ((d : ℚ) * tb * r) else (c.decodedFrames : Int)
    | some _, none => (c.decodedFrames : Int)
    | none, _ => (c.decodedFrames : Int)
  else (c.frames : Int)

/-- `get_video_info` (trim.py 8-40): require a video stream; fail when the
average rate is missing or not positive (`not frame_rate or frame_rate <=
0`); determine `nb_frames` by the fallback cascade (`frameCountOf`); fail
if the count is still zero. -/
def get_video_info (c : Container) : Except String VideoInfo :=
  if c.hasVideo then
    match c.averageRate with
    | none => Except.error "Could not determine frame rate"
    | some r =>
      if r ≤ 0 then Except.error "Could not determine frame rate"
      else if frameCountOf c r = 0 then Except.error "Could not determine frame count"
      else Except.ok ⟨r, frameCountOf c r, c.hasAudio⟩
  else Except.error "No video stream found"

/-- Python's falsiness of the duration metadata pair: the duration-based
estimate is skipped when either field is absent or zero. -/
def durationUnavailable (c : Container) : Prop :=
  c.duration = none ∨ c.timeBase = none ∨ c.duration = some 0 ∨ c.timeBase = some 0

/-- C8: the inspector fails when the frame rate is absent or not positive;
otherwise the frame count comes from exactly three strategies in priority
order — the container-reported count when nonzero, else the truncated
`duration_seconds * frame_rate` when the duration metadata is available,
else the full sequential decode count — and the inspector fails if the
resulting count is still zero. -/
theorem get_video_info_spec :
    ∀ c : Container, c.hasVideo = true →
    ((c.averageRate = none ∨ ∃ r, c.averageRate = some r ∧ r ≤ 0) →
        get_video_info c = .error "Could not determine frame rate")
    ∧ (∀ r : ℚ, c.averageRate = some r → 0 < r →
        (c.frames ≠ 0 →
            get_video_info c = .ok ⟨r, (c.frames : Int), c.hasAudio⟩)
        ∧ (c.frames = 0 → ∀ (d : Int) (tb : ℚ),
            c.duration = some d → c.timeBase = some tb → d ≠ 0 → tb ≠ 0 →
            get_video_info c =
              (if pyInt ((d : ℚ) * tb * r) = 0
               then .error "Could not determine frame count"
               else .ok ⟨r, pyInt ((d : ℚ) * tb * r), c.hasAudio⟩))
        ∧ (c.frames = 0 → durationUnavailable c →
            get_video_info c =
              (if c.decodedFrames = 0
               then .error "Could not determine frame count"
               else .ok ⟨r, (c.decodedFrames : Int), c.hasAudio⟩))) := by
  intro c hv
  constructor
  · intro h
    unfold get_video_info
    rcases h with hnone | ⟨r, hr, hle⟩
    · simp [hv, hnone]
    · simp [hv, hr, hle]
  · intro r hr hpos
    have hnle : ¬ r ≤ 0 := not_le.mpr hpos
    refine ⟨?_, ?_, ?_⟩
    · intro hnz
      have hfc : frameCountOf c r = (c.frames : Int) := by
        unfold frameCountOf
        rw [if_neg hnz]
      unfold get_video_info
      simp only [hv, if_true, hr, hfc]
      rw [if_neg hnle, if_neg (by exact_mod_cast hnz)]
    · intro hz d tb hd htb hd0 htb0
      have hfc : frameCountOf c r = pyInt ((d : ℚ) * tb * r) := by
        unfold frameCountOf
        rw [if_pos hz, hd, htb]
        exact if_pos ⟨hd0, htb0⟩
      unfold get_video_info
      simp only [hv, if_true, hr, hfc]
      rw [if_neg hnle]
    · intro hz hdu
      have hfc : frameCountOf c r = (c.decodedFrames : Int) := by
        unfold frameCountOf
        rw [if_pos hz]
        cases hd' : c.duration with
        | none => rfl
        | some d =>
          cases htb' : c.timeBase with
          | none => rfl
          | some tb =>
            have hor : d = 0 ∨ tb = 0 := by
              rcases hdu with h1 | h1 | h1 | h1
              · rw [h1] at hd'
                exact absurd hd' (by simp)
              · rw [h1] at htb'
                exact absurd htb' (by simp)
              · rw [h1] at hd'
                injection hd' with h2
                exact Or.inl h2.symm
              · rw [h1] at htb'
                injection htb' with h2
                exact Or.inr h2.symm
            exact if_neg (by tauto)
      unfold get_video_info
      simp only [hv, if_true, hr, hfc]
      rw [if_neg hnle]
      by_cases hz2 : c.decodedFrames = 0
      · rw [if_pos (by exact_mod_cast hz2), if_pos hz2]
      · rw [if_neg (by exact_mod_cast hz2), if_neg hz2]

/-- Witness for C8: a container with rate 30, 500 reported frames. -/
theorem get_video_info_spec_witness :
    get_video_info ⟨true, some 30, 500, none, none, 0, true⟩
      = .ok ⟨30, (500 : Nat), true⟩ :=
  (((get_video_info_spec ⟨true, some 30, 500, none, none, 0, true⟩ rfl).2
      30 rfl (by norm_num)).1) (by decide)

/-! Index-based bounds on the reconciliation folds, used for the
monotonicity analysis of the window computation. -/

lemma getD_set_eq (l : List Int) (i : Nat) (v : Int) (h : i < l.length) :
    (l.set i v).getD i 0 = v := by
  simp [List.getD_eq_getElem?_getD, List.getElem?_set_eq_of_lt _ h]

lemma getD_set_ne (l : List Int) (k i : Nat) (v : Int) (h : k ≠ i) :
    (l.set i v).getD k 0 = l.getD k 0 := by
  simp [List.getD_eq_getElem?_getD, List.getElem?_set_ne (Ne.symm h)]

lemma foldr_max_le_iff_getD (os : List Int) (b m : Int) :
    os.foldr (fun o a => max (-o) a) b ≤ m
      ↔ b ≤ m ∧ ∀ k, k < os.length → -(os.getD k 0) ≤ m := by
  induction os with
  | nil => simp
  | cons o t ih =>
    simp only [List.foldr_cons, max_le_iff, ih, List.length_cons]
    constructor
    · rintro ⟨h1, h2, h3⟩
      refine ⟨h2, ?_⟩
      intro k hk
      cases k with
      | zero => simpa using h1
      | succ k2 => simpa using h3 k2 (by omega)
    · rintro ⟨h1, h2⟩
      exact ⟨by simpa using h2 0 (by omega), h1,
        fun k hk => by simpa using h2 (k + 1) (by omega)⟩

lemma le_zip_foldr_min_iff_getD (cs : List Int) :
    ∀ (os : List Int) (b m : Int),
    m ≤ (cs.zip os).foldr (fun co a => min (co.1 - 1 - co.2) a) b
      ↔ m ≤ b ∧ ∀ k, k < (cs.zip os).length → m ≤ cs.getD k 0 - 1 - os.getD k 0 := by
  induction cs with
  | nil =>
    intro os b m
    simp
  | cons c ct ih =>
    intro os b m
    cases os with
    | nil => simp
    | cons o ot =>
      simp only [List.zip_cons_cons, List.foldr_cons, le_min_iff, ih, List.length_cons]
      constructor
      · rintro ⟨h1, h2, h3⟩
        refine ⟨h2, ?_⟩
        intro k hk
        cases k with
        | zero => simpa using h1
        | succ k2 => simpa using h3 k2 (by omega)
      · rintro ⟨h1, h2⟩
        exact ⟨by simpa using h2 0 (by omega), h1,
          fun k hk => by simpa using h2 (k + 1) (by omega)⟩

lemma zip_foldr_min_le_add (cs₁ : List Int) :
    ∀ (os₁ cs₂ os₂ : List Int) (b₁ b₂ d : Int), 0 ≤ d → b₁ ≤ b₂ + d →
    cs₁.length = cs₂.length → os₁.length = os₂.length →
    (∀ k, k < (cs₁.zip os₁).length →
      cs₁.getD k 0 - os₁.getD k 0 ≤ cs₂.getD k 0 - os₂.getD k 0 + d) →
    (cs₁.zip os₁).foldr (fun co a => min (co.1 - 1 - co.2) a) b₁
      ≤ (cs₂.zip os₂).foldr (fun co a => min (co.1 - 1 - co.2) a) b₂ + d := by
  induction cs₁ with
  | nil =>
    intro os₁ cs₂ os₂ b₁ b₂ d hd hb hc ho hpt
    cases cs₂ with
    | nil => simpa using hb
    | cons c2 ct2 => simp at hc
  | cons c1 ct1 ih =>
    intro os₁ cs₂ os₂ b₁ b₂ d hd hb hc ho hpt
    cases os₁ with
    | nil =>
      cases os₂ with
      | nil =>
        simpa using hb
      | cons o2 ot2 => simp at ho
    | cons o1 ot1 =>
      cases cs₂ with
      | nil => simp at hc
      | cons c2 ct2 =>
        cases os₂ with
        | nil => simp at ho
        | cons o2 ot2 =>
          simp only [List.zip_cons_cons, List.foldr_cons]
          have h0 := hpt 0 (by simp)
          simp only [List.getD_cons_zero] at h0
          have htail := ih ot1 ct2 ot2 b₁ b₂ d hd hb (by simpa using hc) (by simpa using ho)
            (fun k hk => by
              simpa using hpt (k + 1) (by
                simp only [List.zip_cons_cons, List.length_cons]
                omega))
          omega

lemma foldr_max_sub_le (os₁ : List Int) :
    ∀ (os₂ : List Int) (b₁ b₂ d : Int), 0 ≤ d → b₂ - d ≤ b₁ →
    os₁.length = os₂.length →
    (∀ k, k < os₂.length → -(os₂.getD k 0) - d ≤ -(os₁.getD k 0)) →
    os₂.foldr (fun o a => max (-o) a) b₂ - d ≤ os₁.foldr (fun o a => max (-o) a) b₁ := by
  induction os₁ with
  | nil =>
    intro os₂ b₁ b₂ d hd hb hlen hpt
    cases os₂ with
    | nil => simpa using hb
    | cons o2 t2 => simp at hlen
  | cons o1 t1 ih =>
    intro os₂ b₁ b₂ d hd hb hlen hpt
    cases os₂ with
    | nil => simp at hlen
    | cons o2 t2 =>
      simp only [List.foldr_cons]
      have h0 := hpt 0 (by simp)
      simp only [List.getD_cons_zero] at h0
      have htail := ih t2 b₁ b₂ d hd hb (by simpa using hlen)
        (fun k hk => by simpa using hpt (k + 1) (by simpa using Nat.succ_lt_succ hk))
      omega

/-- Decreasing one source's frame count leaves the start untouched and can
only decrease the end: the new window is contained in the old one. -/
lemma reconcile_mono_count (counts offsets : List Int) (ts te : Int) (i : Nat) (c' : Int)
    (hlen : counts.length = offsets.length) (hi : i < counts.length)
    (hc' : c' ≤ counts.getD i 0) :
    (reconcile (counts.set i c') offsets ts te).1 = (reconcile counts offsets ts te).1
    ∧ (reconcile (counts.set i c') offsets ts te).2 ≤ (reconcile counts offsets ts te).2 := by
  have hlen2 : (counts.set i c').length = offsets.length := by simp [hlen]
  rw [reconcile_eq _ _ _ _ hlen2, reconcile_eq _ _ _ _ hlen]
  refine ⟨rfl, ?_⟩
  cases counts with
  | nil => simp at hi
  | cons c0 cs =>
    cases i with
    | zero =>
      simp only [List.set_cons_zero, List.drop_succ_cons, List.drop_zero, List.headD_cons]
      have hb : c' ≤ c0 := by simpa using hc'
      have hmin := zip_foldr_min_le_add cs (offsets.drop 1) cs (offsets.drop 1)
        (c' - 1) (c0 - 1) 0 le_rfl (by omega) rfl rfl (fun k _ => by omega)
      omega
    | succ j =>
      simp only [List.set_cons_succ, List.drop_succ_cons, List.drop_zero, List.headD_cons]
      have hj : j < cs.length := by simpa using hi
      have hcj : c' ≤ cs.getD j 0 := by simpa using hc'
      have hpt : ∀ k, k < ((cs.set j c').zip (offsets.drop 1)).length →
          (cs.set j c').getD k 0 - (offsets.drop 1).getD k 0
            ≤ cs.getD k 0 - (offsets.drop 1).getD k 0 + 0 := by
        intro k _
        by_cases hkj : k = j
        · subst hkj
          rw [getD_set_eq _ _ _ hj]
          omega
        · rw [getD_set_ne _ _ _ _ hkj]
          omega
      have hmin := zip_foldr_min_le_add (cs.set j c') (offsets.drop 1) cs (offsets.drop 1)
        (c0 - 1) (c0 - 1) 0 le_rfl (by omega) (by simp) rfl hpt
      omega

/-- Moving a non-master source's offset further in the direction that is
already binding at the window start cannot lengthen the window. -/
lemma reconcile_mono_offset_start (counts offsets : List Int) (ts te : Int) (i : Nat) (o' : Int)
    (hlen : counts.length = offsets.length) (h1 : 1 ≤ i) (hi : i < offsets.length)
    (ho : o' ≤ offsets.getD i 0)
    (hbind : (reconcile counts offsets ts te).1 = -(offsets.getD i 0)) :
    (reconcile counts (offsets.set i o') ts te).2
        - (reconcile counts (offsets.set i o') ts te).1
      ≤ (reconcile counts offsets ts te).2 - (reconcile counts offsets ts te).1 := by
  cases offsets with
  | nil => simp at hi
  | cons o0 os =>
    cases counts with
    | nil => simp at hlen
    | cons c0 cs =>
      cases i with
      | zero => omega
      | succ j =>
        have hj : j < os.length := by simpa using hi
        have hcs : cs.length = os.length := by simpa using hlen
        have hlen2 : (c0 :: cs).length = ((o0 :: os).set (j + 1) o').length := by
          simp [hcs]
        rw [reconcile_eq _ _ _ _ hlen2, reconcile_eq _ _ _ _ hlen] at *
        simp only [List.set_cons_succ, List.drop_succ_cons, List.drop_zero, List.headD_cons,
          List.getD_cons_succ] at *
        set F := os.foldr (fun o a => max (-o) a) 0 with hF
        set F2 := (os.set j o').foldr (fun o a => max (-o) a) 0 with hF2
        set E := (cs.zip os).foldr (fun co a => min (co.1 - 1 - co.2) a) (c0 - 1) with hE
        set E2 := (cs.zip (os.set j o')).foldr (fun co a => min (co.1 - 1 - co.2) a)
          (c0 - 1) with hE2
        have hFj : -(os.getD j 0) ≤ F := ((foldr_max_le_iff_getD os 0 F).mp le_rfl).2 j hj
        have hF0 : (0 : Int) ≤ F := ((foldr_max_le_iff_getD os 0 F).mp le_rfl).1
        have hFeq : F = -(os.getD j 0) := by omega
        have hts : ts ≤ -(os.getD j 0) := by omega
        have hF2ge : -o' ≤ F2 := by
          have := ((foldr_max_le_iff_getD (os.set j o') 0 F2).mp le_rfl).2 j (by
            simpa using hj)
          rwa [getD_set_eq _ _ _ hj] at this
        have hF2le : F2 ≤ -o' := by
          refine (foldr_max_le_iff_getD (os.set j o') 0 (-o')).mpr ⟨by omega, ?_⟩
          intro k hk
          by_cases hkj : k = j
          · subst hkj
            rw [getD_set_eq _ _ _ hj]
          · rw [getD_set_ne _ _ _ _ hkj]
            have := ((foldr_max_le_iff_getD os 0 F).mp le_rfl).2 k (by simpa using hk)
            omega
        have hE2le : E2 ≤ E + (os.getD j 0 - o') := by
          refine zip_foldr_min_le_add cs (os.set j o') cs os (c0 - 1) (c0 - 1)
            (os.getD j 0 - o') (by omega) (by omega) rfl (by simp) ?_
          intro k _
          by_cases hkj : k = j
          · subst hkj
            rw [getD_set_eq _ _ _ hj]
            omega
          · rw [getD_set_ne _ _ _ _ hkj]
            omega
        omega

/-- Moving a non-master source's offset further in the direction that is
already binding at the window end cannot lengthen the window. -/
lemma reconcile_mono_offset_end (counts offsets : List Int) (ts te : Int) (i : Nat) (o' : Int)
    (hlen : counts.length = offsets.length) (h1 : 1 ≤ i) (hi : i < offsets.length)
    (ho : offsets.getD i 0 ≤ o')
    (hbind : (reconcile counts offsets ts te).2
        = counts.getD i 0 - 1 - offsets.getD i 0) :
    (reconcile counts (offsets.set i o') ts te).2
        - (reconcile counts (offsets.set i o') ts te).1
      ≤ (reconcile counts offsets ts te).2 - (reconcile counts offsets ts te).1 := by
  cases offsets with
  | nil => simp at hi
  | cons o0 os =>
    cases counts with
    | nil => simp at hlen
    | cons c0 cs =>
      cases i with
      | zero => omega
      | succ j =>
        have hj : j < os.length := by simpa using hi
        have hcs : cs.length = os.length := by simpa using hlen
        have hjz : j < (cs.zip os).length := by
          simp only [List.length_zip]
          omega
        have hlen2 : (c0 :: cs).length = ((o0 :: os).set (j + 1) o').length := by
          simp [hcs]
        rw [reconcile_eq _ _ _ _ hlen2, reconcile_eq _ _ _ _ hlen] at *
        simp only [List.set_cons_succ, List.drop_succ_cons, List.drop_zero, List.headD_cons,
          List.getD_cons_succ] at *
        set F := os.foldr (fun o a => max (-o) a) 0 with hF
        set F2 := (os.set j o').foldr (fun o a => max (-o) a) 0 with hF2
        set E := (cs.zip os).foldr (fun co a => min (co.1 - 1 - co.2) a) (c0 - 1) with hE
        set E2 := (cs.zip (os.set j o')).foldr (fun co a => min (co.1 - 1 - co.2) a)
          (c0 - 1) with hE2
        have hEj : E ≤ cs.getD j 0 - 1 - os.getD j 0 :=
          ((le_zip_foldr_min_iff_getD cs os (c0 - 1) E).mp le_rfl).2 j hjz
        have hEb : E ≤ c0 - 1 := ((le_zip_foldr_min_iff_getD cs os (c0 - 1) E).mp le_rfl).1
        have hEeq : E = cs.getD j 0 - 1 - os.getD j 0 := by omega
        have hte : cs.getD j 0 - 1 - os.getD j 0 ≤ te := by omega
        have hE2le : E2 ≤ cs.getD j 0 - 1 - o' := by
          have := ((le_zip_foldr_min_iff_getD cs (os.set j o') (c0 - 1) E2).mp le_rfl).2 j (by
            simp only [List.length_zip]
            simpa using hjz)
          rwa [getD_set_eq _ _ _ hj] at this
        have hE2ge : cs.getD j 0 - 1 - o' ≤ E2 := by
          refine (le_zip_foldr_min_iff_getD cs (os.set j o') (c0 - 1)
            (cs.getD j 0 - 1 - o')).mpr ⟨by omega, ?_⟩
          intro k hk
          by_cases hkj : k = j
          · subst hkj
            rw [getD_set_eq _ _ _ hj]
          · rw [getD_set_ne _ _ _ _ hkj]
            have := ((le_zip_foldr_min_iff_getD cs os (c0 - 1) E).mp le_rfl).2 k (by
              simp only [List.length_zip] at hk ⊢
              simpa using hk)
            omega
        have hF2ge : F - (o' - os.getD j 0) ≤ F2 := by
          refine foldr_max_sub_le (os.set j o') os 0 0 (o' - os.getD j 0) (by omega)
            (by omega) (by simp) ?_
          intro k hk
          by_cases hkj : k = j
          · subst hkj
            rw [getD_set_eq _ _ _ hj]
            omega
          · rw [getD_set_ne _ _ _ _ hkj]
            omega
        omega

/-- C9: reconciliation is monotonic under tightening a single source's
parameters. Decreasing one source's frame count keeps the start and can
only decrease the end (the window shrinks or is preserved as a set);
moving one non-master source's offset further in the direction that is
already binding at the window start (respectively at the window end) can
only shrink or preserve the window's length, never widen it. -/
theorem reconcile_monotone :
    (∀ (counts offsets : List Int) (ts te : Int) (i : Nat) (c' : Int),
      counts.length = offsets.length → i < counts.length →
      0 < c' → c' ≤ counts.getD i 0 →
      (reconcile (counts.set i c') offsets ts te).1 = (reconcile counts offsets ts te).1
      ∧ (reconcile (counts.set i c') offsets ts te).2
          ≤ (reconcile counts offsets ts te).2)
    ∧ (∀ (counts offsets : List Int) (ts te : Int) (i : Nat) (o' : Int),
      counts.length = offsets.length → 1 ≤ i → i < offsets.length →
      o' ≤ offsets.getD i 0 →
      (reconcile counts offsets ts te).1 = -(offsets.getD i 0) →
      (reconcile counts (offsets.set i o') ts te).2
          - (reconcile counts (offsets.set i o') ts te).1
        ≤ (reconcile counts offsets ts te).2 - (reconcile counts offsets ts te).1)
    ∧ (∀ (counts offsets : List Int) (ts te : Int) (i : Nat) (o' : Int),
      counts.length = offsets.length → 1 ≤ i → i < offsets.length →
      offsets.getD i 0 ≤ o' →
      (reconcile counts offsets ts te).2 = counts.getD i 0 - 1 - offsets.getD i 0 →
      (reconcile counts (offsets.set i o') ts te).2
          - (reconcile counts (offsets.set i o') ts te).1
        ≤ (reconcile counts offsets ts te).2 - (reconcile counts offsets ts te).1) :=
  ⟨fun counts offsets ts te i c' hlen hi _ hc' =>
      reconcile_mono_count counts offsets ts te i c' hlen hi hc',
   fun counts offsets ts te i o' hlen h1 hi ho hbind =>
      reconcile_mono_offset_start counts offsets ts te i o' hlen h1 hi ho hbind,
   fun counts offsets ts te i o' hlen h1 hi ho hbind =>
      reconcile_mono_offset_end counts offsets ts te i o' hlen h1 hi ho hbind⟩

/-- Witness for C9: count 100 → 50 at source 1; offset -20 → -30 at source
1 while binding at the start; offset 0 → 10 at source 1 while binding at
the end. -/
theorem reconcile_monotone_witness :
    ((reconcile (([100, 100] : List Int).set 1 50) [0, 0] 0 1000).1
        = (reconcile [100, 100] [0, 0] 0 1000).1
      ∧ (reconcile (([100, 100] : List Int).set 1 50) [0, 0] 0 1000).2
        ≤ (reconcile [100, 100] [0, 0] 0 1000).2)
    ∧ ((reconcile [100, 100] (([0, -20] : List Int).set 1 (-30)) 0 1000).2
          - (reconcile [100, 100] (([0, -20] : List Int).set 1 (-30)) 0 1000).1
        ≤ (reconcile [100, 100] [0, -20] 0 1000).2
          - (reconcile [100, 100] [0, -20] 0 1000).1)
    ∧ ((reconcile [100, 50] (([0, 0] : List Int).set 1 10) 0 1000).2
          - (reconcile [100, 50] (([0, 0] : List Int).set 1 10) 0 1000).1
        ≤ (reconcile [100, 50] [0, 0] 0 1000).2
          - (reconcile [100, 50] [0, 0] 0 1000).1) :=
  ⟨reconcile_monotone.1 [100, 100] [0, 0] 0 1000 1 50 rfl (by decide) (by decide) (by decide),
   reconcile_monotone.2.1 [100, 100] [0, -20] 0 1000 1 (-30) rfl (by decide) (by decide)
     (by decide) (by decide),
   reconcile_monotone.2.2 [100, 50] [0, 0] 0 1000 1 10 rfl (by decide) (by decide)
     (by decide) (by decide)⟩

end Multiviewedit
